import Mathlib

/-!
Verification development for the stream-ingestion and reconciliation engine of
the DeepRP client (`src/client/src/stores/appStore.js`).

The JavaScript store is shallowly embedded: the zustand store's fields that the
streaming code reads or writes become a `Store` structure, the per-event body of
the `sendMessage` ingestion loop becomes `processEvent`, the `regenerateMessage`
loop body becomes `regenProcessEvent`, and the byte-to-line reassembly of both
loops is modelled over `List Nat` byte chunks with an incremental UTF-8 decoder
mirroring `TextDecoder`.  JSON payloads are modelled by the inductive `Json`
with an executable parser `parseJson` mirroring `JSON.parse` (success/failure
behaviour on the inputs that matter here: well-formed objects succeed,
truncated/malformed text fails).
-/

/-- JSON values as produced by `JSON.parse`.  Numbers keep their source text
(no claim depends on numeric value, only on JS truthiness). -/
inductive Json where
  | null : Json
  | bool : Bool → Json
  | num : String → Json
  | str : String → Json
  | arr : List Json → Json
  | obj : List (String × Json) → Json

mutual

/-- JS `String()` conversion, used where the source concatenates or stores an
event field into a string-typed piece of state. -/
def jsToString : Json → String
  | .null => ("null")
  | .bool true => ("true")
  | .bool false => ("false")
  | .num raw => raw
  | .str s => s
  | .arr xs => String.intercalate (",") (jsToStringList xs)
  | .obj _ => ("[object Object]")

def jsToStringList : List Json → List String
  | [] => []
  | j :: r => jsToString j :: jsToStringList r

end

/-- Property lookup on a parsed JSON object (`event.field`); `none` models JS
`undefined` (field absent or receiver not an object). -/
def lookupField : List (String × Json) → String → Option Json
  | [], _ => none
  | (k', v) :: rest, k => if k' = k then some v else lookupField rest k

def jGet : Json → String → Option Json
  | .obj fields, k => lookupField fields k
  | _, _ => none

/-- Whether the decimal text of a JSON number denotes a nonzero value (its
mantissa has a nonzero digit); JS truthiness of numbers. -/
def numTruthy (raw : String) : Bool :=
  (raw.toList.takeWhile (fun c => c ≠ 'e' ∧ c ≠ 'E')).any
    (fun c => '1' ≤ c ∧ c ≤ '9')

/-- JS truthiness of `event.field` (`none` = `undefined`). -/
def truthy : Option Json → Bool
  | none => false
  | some .null => false
  | some (.bool b) => b
  | some (.str s) => !(s == (""))
  | some (.num raw) => numTruthy raw
  | some (.arr _) => true
  | some (.obj _) => true

/-- JS strict equality `event.field === s` against a string literal: true
exactly when the field is a string equal to `s`. -/
def strictEqStr (f : Option Json) (s : String) : Bool :=
  match f with
  | some (.str t) => t == s
  | _ => false

/-- The string the source reads out of a field when assigning or concatenating
it into string-typed state (`assistantContent += event.content` etc.).  For the
string-valued fields the protocol actually carries this is the identity; other
JSON values go through JS string conversion. -/
def jstr (e : Json) (k : String) : String :=
  jsToString ((jGet e k).getD .null)

/-! ### JSON parser (`JSON.parse`), executable, fuel-based -/

def isJsonWs (c : Char) : Bool :=
  (c == ' ') || (c == '\t') || (c == '\n') || (c == '\r')

def skipWs (cs : List Char) : List Char := cs.dropWhile isJsonWs

def isDigit (c : Char) : Bool := ('0' ≤ c) && (c ≤ '9')

def hexVal (c : Char) : Option Nat :=
  if ('0' ≤ c) && (c ≤ '9') then some (c.toNat - 48)
  else if ('a' ≤ c) && (c ≤ 'f') then some (c.toNat - 87)
  else if ('A' ≤ c) && (c ≤ 'F') then some (c.toNat - 55)
  else none

/-- The replacement character U+FFFD. -/
def repl : Char := Char.ofNat 0xFFFD

/-- Body of a JSON string after the opening quote.  Handles the JSON escapes
and `\uXXXX` (surrogate pairs combined; a lone surrogate, unrepresentable as a
Lean `Char`, becomes U+FFFD).  Raw control characters are rejected as in
`JSON.parse`. -/
def parseStringBody : Nat → List Char → List Char → Option (String × List Char)
  | 0, _, _ => none
  | _ + 1, [], _ => none
  | fuel + 1, c :: rest, acc =>
    if c = '"' then some (String.mk acc.reverse, rest)
    else if c = '\\' then
      match rest with
      | [] => none
      | e :: rest2 =>
        if e = '"' then parseStringBody fuel rest2 ('"' :: acc)
        else if e = '\\' then parseStringBody fuel rest2 ('\\' :: acc)
        else if e = '/' then parseStringBody fuel rest2 ('/' :: acc)
        else if e = 'b' then parseStringBody fuel rest2 ('\x08' :: acc)
        else if e = 'f' then parseStringBody fuel rest2 ('\x0c' :: acc)
        else if e = 'n' then parseStringBody fuel rest2 ('\n' :: acc)
        else if e = 'r' then parseStringBody fuel rest2 ('\x0d' :: acc)
        else if e = 't' then parseStringBody fuel rest2 ('\t' :: acc)
        else if e = 'u' then
          match rest2 with
          | a :: b :: c2 :: d :: rest3 =>
            match hexVal a, hexVal b, hexVal c2, hexVal d with
            | some ha, some hb, some hc, some hd =>
              let n := ((ha * 16 + hb) * 16 + hc) * 16 + hd
              if 0xD800 ≤ n ∧ n ≤ 0xDBFF then
                match rest3 with
                | '\\' :: 'u' :: a2 :: b2 :: c3 :: d2 :: rest4 =>
                  match hexVal a2, hexVal b2, hexVal c3, hexVal d2 with
                  | some h1, some h2, some h3, some h4 =>
                    let n2 := ((h1 * 16 + h2) * 16 + h3) * 16 + h4
                    if 0xDC00 ≤ n2 ∧ n2 ≤ 0xDFFF then
                      parseStringBody fuel rest4
                        (Char.ofNat (0x10000 + (n - 0xD800) * 0x400 + (n2 - 0xDC00)) :: acc)
                    else parseStringBody fuel rest3 (repl :: acc)
                  | _, _, _, _ => parseStringBody fuel rest3 (repl :: acc)
                | _ => parseStringBody fuel rest3 (repl :: acc)
              else if 0xDC00 ≤ n ∧ n ≤ 0xDFFF then
                parseStringBody fuel rest3 (repl :: acc)
              else parseStringBody fuel rest3 (Char.ofNat n :: acc)
            | _, _, _, _ => none
          | _ => none
        else none
    else if c.toNat < 0x20 then none
    else parseStringBody fuel rest (c :: acc)

/-- A JSON number token (`-? (0|[1-9][0-9]*) frac? exp?`), returned as its
source text. -/
def parseNumber (cs : List Char) : Option (String × List Char) :=
  let p := match cs with
    | '-' :: r => (true, r)
    | _ => (false, cs)
  let neg := p.1
  let cs1 := p.2
  let ip := cs1.takeWhile isDigit
  let cs2 := cs1.dropWhile isDigit
  if ip = [] then none
  else if ip.length > 1 ∧ ip.head? = some '0' then none
  else
    let frac : Option (List Char × List Char) :=
      match cs2 with
      | '.' :: r =>
        let ds := r.takeWhile isDigit
        if ds = [] then none else some ('.' :: ds, r.dropWhile isDigit)
      | _ => some ([], cs2)
    match frac with
    | none => none
    | some (fp, cs3) =>
      let expo : Option (List Char × List Char) :=
        match cs3 with
        | e :: r =>
          if e = 'e' ∨ e = 'E' then
            let q := match r with
              | '+' :: r2 => ((['+'] : List Char), r2)
              | '-' :: r2 => (['-'], r2)
              | _ => ([], r)
            let ds := q.2.takeWhile isDigit
            if ds = [] then none
            else some (e :: (q.1 ++ ds), q.2.dropWhile isDigit)
          else some ([], cs3)
        | [] => some ([], cs3)
      match expo with
      | none => none
      | some (ep, cs4) =>
        some (String.mk ((if neg then ['-'] else []) ++ ip ++ fp ++ ep), cs4)

/-- Insert-or-replace a key in an object under construction: `JSON.parse`
keeps the first occurrence's position with the last occurrence's value. -/
def upsert : List (String × Json) → String → Json → List (String × Json)
  | [], k, v => [(k, v)]
  | (k', v') :: rest, k, v =>
    if k' = k then (k, v) :: rest else (k', v') :: upsert rest k v

mutual

def parseValue : Nat → List Char → Option (Json × List Char)
  | 0, _ => none
  | _ + 1, [] => none
  | fuel + 1, c :: rest =>
    if c = '\x7b' then parseObject fuel (skipWs rest) []
    else if c = '[' then parseArray fuel (skipWs rest) []
    else if c = '"' then
      match parseStringBody (fuel + 1) rest [] with
      | some (s, r) => some (.str s, r)
      | none => none
    else if c = 't' then
      match rest with
      | 'r' :: 'u' :: 'e' :: r => some (.bool true, r)
      | _ => none
    else if c = 'f' then
      match rest with
      | 'a' :: 'l' :: 's' :: 'e' :: r => some (.bool false, r)
      | _ => none
    else if c = 'n' then
      match rest with
      | 'u' :: 'l' :: 'l' :: r => some (.null, r)
      | _ => none
    else if c = '-' ∨ isDigit c then
      match parseNumber (c :: rest) with
      | some (s, r) => some (.num s, r)
      | none => none
    else none

def parseArray : Nat → List Char → List Json → Option (Json × List Char)
  | 0, _, _ => none
  | _ + 1, [], _ => none
  | fuel + 1, c :: r, acc =>
    if (c == ']') && acc.isEmpty then some (.arr [], r)
    else
      match parseValue fuel (c :: r) with
      | none => none
      | some (v, rest) =>
        match skipWs rest with
        | ',' :: r2 => parseArray fuel (skipWs r2) (acc ++ [v])
        | ']' :: r2 => some (.arr (acc ++ [v]), r2)
        | _ => none

def parseObject : Nat → List Char → List (String × Json) → Option (Json × List Char)
  | 0, _, _ => none
  | _ + 1, [], _ => none
  | fuel + 1, c :: r, acc =>
    if (c == '\x7d') && acc.isEmpty then some (.obj [], r)
    else if c = '"' then
      match parseStringBody fuel r [] with
      | none => none
      | some (k, rest) =>
        match skipWs rest with
        | ':' :: r2 =>
          match parseValue fuel (skipWs r2) with
          | none => none
          | some (v, rest2) =>
            match skipWs rest2 with
            | ',' :: r3 => parseObject fuel (skipWs r3) (upsert acc k v)
            | '\x7d' :: r3 => some (.obj (upsert acc k v), r3)
            | _ => none
        | _ => none
    else none

end

/-- `JSON.parse`: parse a complete JSON document, rejecting trailing garbage. -/
def parseJson (s : String) : Option Json :=
  let cs := skipWs s.toList
  match parseValue (2 * cs.length + 8) cs with
  | some (j, rest) => if skipWs rest = [] then some j else none
  | none => none

/-! ### Store state (the slice of the zustand store the streaming code touches) -/

/-- A chat message as created and mutated by the streaming code. -/
structure Message where
  id : String
  role : String
  content : String
  image_url : Option String
  isError : Bool
  timestamp : String
deriving DecidableEq, Repr

/-- An entry of `sessionImages`: `{ url: event.url, messageId: assistantMsgId }`. -/
structure ImageEntry where
  url : String
  messageId : String
deriving DecidableEq, Repr

/-- A chat session (only its id is relevant to the streaming code). -/
structure Session where
  id : String
deriving DecidableEq, Repr

/-- The store fields read or written by `sendMessage`, `regenerateMessage` and
`stopStreaming`.  `agentStage` holds the raw event field (`null` initially). -/
structure Store where
  messages : List Message
  isStreaming : Bool
  agentStage : Option Json
  directorOutput : String
  paintDirectorOutput : String
  showDirectorPopup : Bool
  showPaintDirectorPopup : Bool
  sessionImages : List ImageEntry
  activeSession : Option Session
  sessions : List Session

/-- `state.messages.map(m => m.id === target ? f(m) : m)` — the update pattern
used throughout the ingestion loops. -/
def applyToMsg (msgs : List Message) (target : String) (f : Message → Message) :
    List Message :=
  msgs.map (fun m => if m.id == target then f m else m)

/-- `stopStreaming` (appStore.js:489-491): only resets two flags; it does not
abort the in-flight read. -/
def stopStreaming (s : Store) : Store :=
  { s with isStreaming := false, agentStage := none }

/-- The closure state of one `sendMessage` ingestion loop: the shared store
plus the loop-local `assistantContent` and `assistantMsgId`. -/
structure SendLoopSt where
  store : Store
  assistantContent : String
  assistantMsgId : String

/-- The body of `sendMessage`'s per-event processing (appStore.js:349-466),
applied to one successfully parsed event.  Each `if` mirrors a branch of the
source; the three `continue` branches short-circuit the rest.  Non-string
field values are carried into string-typed state via JS string conversion. -/
def processEvent (st : SendLoopSt) (e : Json) : SendLoopSt :=
  -- if (event.stage) { ... }  (appStore.js:352-362)
  let st :=
    if truthy (jGet e ("stage")) then
      let s1 := { st with store := { st.store with agentStage := jGet e ("stage") } }
      let s2 :=
        if strictEqStr (jGet e ("stage")) ("director") then
          { s1 with store :=
              { s1.store with showDirectorPopup := true, directorOutput := ("") } }
        else s1
      if strictEqStr (jGet e ("stage")) ("paint_director") then
        { s2 with store :=
            { s2.store with showPaintDirectorPopup := true, paintDirectorOutput := ("") } }
      else s2
    else st
  -- director_chunk (365-368, `continue`)
  if strictEqStr (jGet e ("type")) ("director_chunk") && truthy (jGet e ("content")) then
    { st with store :=
        { st.store with directorOutput := st.store.directorOutput ++ jstr e ("content") } }
  -- outline (371-377, `continue`)
  else if strictEqStr (jGet e ("type")) ("outline") then
    if truthy (jGet e ("content")) then
      { st with store := { st.store with directorOutput := jstr e ("content") } }
    else st
  -- paint_chunk (380-383, `continue`)
  else if strictEqStr (jGet e ("type")) ("paint_chunk") && truthy (jGet e ("content")) then
    { st with store :=
        { st.store with paintDirectorOutput := st.store.paintDirectorOutput ++ jstr e ("content") } }
  else
    -- image + prompt (386-388)
    let st :=
      if strictEqStr (jGet e ("type")) ("image") && truthy (jGet e ("prompt")) then
        { st with store := { st.store with paintDirectorOutput := jstr e ("prompt") } }
      else st
    -- content delta (391-400)
    let st :=
      if strictEqStr (jGet e ("type")) ("content") && truthy (jGet e ("content")) then
        let ac := st.assistantContent ++ jstr e ("content")
        { st with assistantContent := ac,
                  store := { st.store with
                    messages := applyToMsg st.store.messages st.assistantMsgId
                      (fun m => { m with content := ac }) } }
      else st
    -- image + url (403-412)
    let st :=
      if strictEqStr (jGet e ("type")) ("image") && truthy (jGet e ("url")) then
        { st with store := { st.store with
            sessionImages := st.store.sessionImages ++
              [{ url := jstr e ("url"), messageId := st.assistantMsgId }],
            messages := applyToMsg st.store.messages st.assistantMsgId
              (fun m => { m with image_url := some (jstr e ("url")) }) } }
      else st
    -- processed_content (415-423)
    let st :=
      if strictEqStr (jGet e ("type")) ("processed_content") && truthy (jGet e ("content")) then
        { st with store := { st.store with
            messages := applyToMsg st.store.messages st.assistantMsgId
              (fun m => { m with content := jstr e ("content") }) } }
      else st
    -- message_id reassignment (425-436)
    let st :=
      if truthy (jGet e ("message_id")) &&
         !(strictEqStr (jGet e ("message_id")) st.assistantMsgId) then
        let oldId := st.assistantMsgId
        let newId := jstr e ("message_id")
        { st with assistantMsgId := newId,
                  store := { st.store with
                    messages := applyToMsg st.store.messages oldId
                      (fun m => { m with id := newId }) } }
      else st
    -- done (438-453)
    let st :=
      if truthy (jGet e ("done")) then
        if truthy (jGet e ("processed_content")) then
          { st with store := { st.store with
              messages := applyToMsg st.store.messages st.assistantMsgId
                (fun m => { m with content := jstr e ("processed_content") }),
              isStreaming := false, agentStage := none } }
        else
          { st with store := { st.store with isStreaming := false, agentStage := none } }
      else st
    -- error (455-466)
    if truthy (jGet e ("error")) then
      { st with store := { st.store with
          messages := applyToMsg st.store.messages st.assistantMsgId
            (fun m => { m with content := ("⚠️ Error: ") ++ jstr e ("error"),
                               isError := true }),
          isStreaming := false, agentStage := none } }
    else st

/-- Folding the event processor over a sequence of parsed events. -/
def processEvents (st : SendLoopSt) (es : List Json) : SendLoopSt :=
  es.foldl processEvent st

/-- JS `String.prototype.trim` (the whitespace actually occurring in the
protocol: the usual ASCII whitespace plus NBSP and BOM). -/
def isJsTrimWs (c : Char) : Bool :=
  (c == ' ') || (c == '\t') || (c == '\n') || (c == '\r') ||
  (c == '\x0b') || (c == '\x0c') || (c == ' ') || (c == '﻿')

def jsTrim (s : String) : String :=
  String.mk (((s.toList.dropWhile isJsTrimWs).reverse.dropWhile isJsTrimWs).reverse)

/-- `sendMessage`'s handling of one complete line (appStore.js:343-469):
prefix filter, `slice(6).trim()`, sentinel/empty skip, `JSON.parse` with
parse failures silently ignored. -/
def processLine (st : SendLoopSt) (line : String) : SendLoopSt :=
  if ("data: ").toList.isPrefixOf line.toList then
    let data := jsTrim (line.drop 6)
    if data = ("[DONE]") ∨ data = ("") then st
    else
      match parseJson data with
      | some e => processEvent st e
      | none => st
  else st

def processLines (st : SendLoopSt) (lines : List String) : SendLoopSt :=
  lines.foldl processLine st

/-- The optimistic mutations at the start of `sendMessage`
(appStore.js:280-309): append the user message, set `isStreaming`, then append
the empty assistant message; returns the new store together with the loop
locals (`assistantContent`, `assistantMsgId`). -/
def sendStart (store : Store) (content userId asstId ts : String) :
    Store × String × String :=
  let store1 := { store with
    messages := store.messages ++
      [({ id := userId, role := ("user"), content := content,
          image_url := none, isError := false, timestamp := ts } : Message)],
    isStreaming := true }
  let store2 := { store1 with
    messages := store1.messages ++
      [({ id := asstId, role := ("assistant"), content := (""),
          image_url := none, isError := false, timestamp := ts } : Message)] }
  (store2, (""), asstId)

/-! ### The `regenerateMessage` path -/

/-- Loop state of `regenerateMessage`: store plus the locals `newContent`
and `newMsgId`. -/
structure RegenLoopSt where
  store : Store
  newContent : String
  newMsgId : String

/-- The body of `regenerateMessage`'s per-event processing
(appStore.js:541-569).  Note: the `message_id` branch only reassigns the local
`newMsgId`; unlike `sendMessage` it does not rewrite the id of the message in
the list. -/
def regenProcessEvent (st : RegenLoopSt) (e : Json) : RegenLoopSt :=
  -- if (event.content) (543-550)
  let st :=
    if truthy (jGet e ("content")) then
      let nc := st.newContent ++ jstr e ("content")
      { st with newContent := nc,
                store := { st.store with
                  messages := applyToMsg st.store.messages st.newMsgId
                    (fun m => { m with content := nc }) } }
    else st
  -- if (event.message_id) (552-554)
  let st :=
    if truthy (jGet e ("message_id")) then
      { st with newMsgId := jstr e ("message_id") }
    else st
  -- if (event.done) (556-558)
  let st :=
    if truthy (jGet e ("done")) then
      { st with store := { st.store with isStreaming := false } }
    else st
  -- if (event.error) (560-569)
  if truthy (jGet e ("error")) then
    { st with store := { st.store with
        messages := applyToMsg st.store.messages st.newMsgId
          (fun m => { m with content := ("⚠️ Error: ") ++ jstr e ("error"),
                             isError := true }),
        isStreaming := false } }
  else st

def regenProcessEvents (st : RegenLoopSt) (es : List Json) : RegenLoopSt :=
  es.foldl regenProcessEvent st

/-- `regenerateMessage`'s handling of one line (appStore.js:535-572): prefix
filter, `slice(6)` with no trim, `[DONE]` skip (no empty-payload skip), parse
failures ignored. -/
def regenProcessLine (st : RegenLoopSt) (line : String) : RegenLoopSt :=
  if ("data: ").toList.isPrefixOf line.toList then
    let data := line.drop 6
    if data = ("[DONE]") then st
    else
      match parseJson data with
      | some e => regenProcessEvent st e
      | none => st
  else st

def regenProcessLines (st : RegenLoopSt) (lines : List String) : RegenLoopSt :=
  lines.foldl regenProcessLine st

/-- Result of `regenerateMessage`'s pre-network phase: the store after the
guards (and `set({ isStreaming: true })` when they pass), and the request
parameters if a network request is issued. -/
structure RegenAttempt where
  store : Store
  request : Option (String × String × Nat)

/-- The guard section of `regenerateMessage` (appStore.js:498-509): early
return when there is no active session, when `messageId` is falsy
(null/undefined/empty), or when no message carries `messageId`; otherwise set
`isStreaming` and issue the request. -/
def regenerateStart (store : Store) (messageId : Option String) : RegenAttempt :=
  match store.activeSession with
  | none => { store := store, request := none }
  | some sess =>
    match messageId with
    | none => { store := store, request := none }
    | some mid =>
      if mid = ("") then { store := store, request := none }
      else
        match store.messages.findIdx? (fun m => m.id == mid) with
        | none => { store := store, request := none }
        | some i =>
          { store := { store with isStreaming := true },
            request := some (sess.id, mid, i) }

/-- The replacement step of `regenerateMessage` (appStore.js:521-526): rewrite
the target slot to an empty message with the fresh provisional id and truncate
the list after it. -/
def regenPrepare (store : Store) (msgIndex : Nat) (newMsgId : String) : Store :=
  { store with
    messages :=
      ((store.messages.mapIdx (fun i m =>
          if i = msgIndex then { m with id := newMsgId, content := ("") } else m)).take
        (msgIndex + 1)) }

/-! ### Byte-to-line reassembly (the Frame Reader of both ingestion loops)

`sendMessage` (appStore.js:327-346) decodes each received byte chunk with a
shared `TextDecoder` in streaming mode, appends the text to a line buffer,
splits on `'\n'` and keeps the trailing (possibly incomplete) part in the
buffer.  `regenerateMessage` (appStore.js:528-538) decodes each chunk
independently (no streaming flag) and splits it with no buffer. -/

/-- Continuation bytes expected after a UTF-8 lead byte. -/
def utf8Need (b : Nat) : Nat :=
  if b < 0x80 then 0
  else if b < 0xC0 then 0
  else if b < 0xE0 then 1
  else if b < 0xF0 then 2
  else if b < 0xF8 then 3
  else 0

/-- Code point of a complete UTF-8 sequence (lead byte plus continuations);
values that are not Unicode scalar values become U+FFFD. -/
def utf8Combine (lead : Nat) (conts : List Nat) : Char :=
  let n :=
    if utf8Need lead = 1 then (lead - 0xC0) * 64 + ((conts.headD 0) - 0x80)
    else if utf8Need lead = 2 then
      (lead - 0xE0) * 4096 + ((conts.headD 0) - 0x80) * 64 + ((conts.getD 1 0) - 0x80)
    else
      (lead - 0xF0) * 262144 + ((conts.headD 0) - 0x80) * 4096 +
        ((conts.getD 1 0) - 0x80) * 64 + ((conts.getD 2 0) - 0x80)
  if (n < 0xD800 ∨ (0xE000 ≤ n ∧ n ≤ 0x10FFFF)) then Char.ofNat n else repl

/-- One byte of incremental UTF-8 decoding (`TextDecoder` with
`stream: true`): the state is the pending incomplete sequence; malformed
input yields U+FFFD, as with the default `fatal: false`. -/
def decodeByte (pending : List Nat) (b : Nat) : List Nat × List Char :=
  match pending with
  | [] =>
    if b < 0x80 then ([], [Char.ofNat b])
    else if utf8Need b = 0 then ([], [repl])
    else ([b], [])
  | lead :: conts =>
    if 0x80 ≤ b ∧ b < 0xC0 then
      if conts.length + 1 = utf8Need lead then ([], [utf8Combine lead (conts ++ [b])])
      else (lead :: (conts ++ [b]), [])
    else
      -- broken sequence: emit U+FFFD for the pending bytes, restart at b
      if b < 0x80 then ([], [repl, Char.ofNat b])
      else if utf8Need b = 0 then ([], [repl, repl])
      else ([b], [repl])

/-- `TextDecoder.decode(chunk, { stream: true })`: decode a whole chunk,
threading the pending-bytes state. -/
def decodeChunk (pending : List Nat) (chunk : List Nat) : List Nat × List Char :=
  chunk.foldl
    (fun acc b => ((decodeByte acc.1 b).1, acc.2 ++ (decodeByte acc.1 b).2))
    (pending, [])

/-- `text.split('\n')` on a character list: always returns at least one part;
parts carry no `'\n'`. -/
def splitList : List Char → List (List Char)
  | [] => [[]]
  | c :: cs =>
    if c = '\n' then [] :: splitList cs
    else
      match splitList cs with
      | [] => [[c]]
      | l :: ls => (c :: l) :: ls

/-- State of `sendMessage`'s reader: decoder state, line buffer, and the
complete lines handed to the event loop so far. -/
structure ReadSt where
  dec : List Nat
  buf : List Char
  out : List (List Char)
deriving DecidableEq

/-- `sendMessage`'s per-chunk step (appStore.js:331-342): decode with the
streaming decoder, split `buffer + text` on newlines, keep the last part as
the new buffer (`buffer = lines.pop() || ''`), emit the rest. -/
def chunkStep (st : ReadSt) (chunk : List Nat) : ReadSt :=
  let d := decodeChunk st.dec chunk
  let parts := splitList (st.buf ++ d.2)
  { dec := d.1, buf := parts.getLastD [], out := st.out ++ parts.dropLast }

/-- Run `sendMessage`'s reader over a whole chunked stream; on stream end the
unterminated trailing buffer is dropped (the loop exits without emitting it). -/
def readStream (chunks : List (List Nat)) : ReadSt :=
  chunks.foldl chunkStep { dec := [], buf := [], out := [] }

/-- Per-line payload extraction of `sendMessage` (appStore.js:344-346): only
`data: ` lines count, the payload is `slice(6).trim()`, and `[DONE]`/empty
payloads are skipped. -/
def extractPayload (line : List Char) : Option (List Char) :=
  if ("data: ").toList.isPrefixOf line then
    let data := ((line.drop 6).dropWhile isJsTrimWs).reverse.dropWhile isJsTrimWs |>.reverse
    if data = ("[DONE]").toList ∨ data = [] then none else some data
  else none

/-- The frame payloads `sendMessage` processes from a chunked byte stream. -/
def sendFrames (chunks : List (List Nat)) : List (List Char) :=
  (readStream chunks).out.filterMap extractPayload

/-- `TextDecoder.decode(chunk)` with no streaming flag, as used by
`regenerateMessage`: a fresh decode per chunk; an incomplete trailing
sequence is flushed as U+FFFD. -/
def decodeFull (chunk : List Nat) : List Char :=
  let d := decodeChunk [] chunk
  d.2 ++ (if d.1 = [] then [] else [repl])

/-- Per-line payload extraction of `regenerateMessage` (appStore.js:535-538):
no trim and no empty-payload skip. -/
def regenExtract (line : List Char) : Option (List Char) :=
  if ("data: ").toList.isPrefixOf line then
    let data := line.drop 6
    if data = ("[DONE]").toList then none else some data
  else none

/-- The frame payloads `regenerateMessage` processes from a chunked stream:
every chunk is decoded and split independently, and every split part
(including a trailing partial line) is handed to the event loop. -/
def regenFrames (chunks : List (List Nat)) : List (List Char) :=
  chunks.flatMap (fun c => (splitList (decodeFull c)).filterMap regenExtract)

/-- UTF-8 encoding, for describing concrete byte streams in statements. -/
def utf8EncodeChar (c : Char) : List Nat :=
  let n := c.toNat
  if n < 0x80 then [n]
  else if n < 0x800 then [0xC0 + n / 64, 0x80 + n % 64]
  else if n < 0x10000 then
    [0xE0 + n / 4096, 0x80 + (n / 64) % 64, 0x80 + n % 64]
  else
    [0xF0 + n / 262144, 0x80 + (n / 4096) % 64, 0x80 + (n / 64) % 64, 0x80 + n % 64]

def strBytes (s : String) : List Nat := s.toList.flatMap utf8EncodeChar

/-! ### Frame-reader lemmas -/

/-- Character-at-a-time form of the buffer-and-split line discipline. -/
def feedChar (p : List Char × List (List Char)) (c : Char) :
    List Char × List (List Char) :=
  if c = '\n' then ([], p.2 ++ [p.1]) else (p.1 ++ [c], p.2)

/-- Byte-at-a-time form of `sendMessage`'s reader step. -/
def byteStep (st : ReadSt) (b : Nat) : ReadSt :=
  let d := decodeByte st.dec b
  let f := d.2.foldl feedChar (st.buf, [])
  { dec := d.1, buf := f.1, out := st.out ++ f.2 }

theorem splitList_ne_nil (l : List Char) : splitList l ≠ [] := by
  cases l with
  | nil => simp [splitList]
  | cons c cs =>
    simp only [splitList]
    split
    · simp
    · split <;> simp

theorem splitList_no_nl (l : List Char) (h : '\n' ∉ l) : splitList l = [l] := by
  induction l with
  | nil => rfl
  | cons c cs ih =>
    simp only [List.mem_cons, not_or] at h
    have hc : c ≠ '\n' := fun hh => h.1 hh.symm
    simp only [splitList, if_neg hc, ih h.2]

theorem splitList_append_no_nl (b t : List Char) (h : '\n' ∉ b) :
    splitList (b ++ t) = (b ++ (splitList t).headD []) :: (splitList t).tail := by
  induction b with
  | nil =>
    simp only [List.nil_append]
    cases hsp : splitList t with
    | nil => exact absurd hsp (splitList_ne_nil t)
    | cons x xs => simp
  | cons c cs ih =>
    simp only [List.mem_cons, not_or] at h
    have hc : c ≠ '\n' := fun hh => h.1 hh.symm
    rw [List.cons_append]
    simp only [splitList, if_neg hc]
    rw [ih h.2]
    rfl

theorem feed_acc (t : List Char) : ∀ (b : List Char) (o : List (List Char)),
    t.foldl feedChar (b, o)
      = ((t.foldl feedChar (b, [])).1, o ++ (t.foldl feedChar (b, [])).2) := by
  induction t with
  | nil => intro b o; simp
  | cons c t' ih =>
    intro b o
    by_cases hc : c = '\n'
    · subst hc
      simp only [List.foldl_cons, feedChar, reduceIte, List.nil_append]
      rw [ih [] (o ++ [b]), ih [] [b]]
      simp
    · simp only [List.foldl_cons, feedChar, if_neg hc]
      rw [ih (b ++ [c]) o]

theorem feed_eq_split (t : List Char) : ∀ (b : List Char), '\n' ∉ b →
    t.foldl feedChar (b, [])
      = ((splitList (b ++ t)).getLastD [], (splitList (b ++ t)).dropLast) := by
  induction t with
  | nil =>
    intro b h
    simp [splitList_no_nl b h]
  | cons c t' ih =>
    intro b h
    by_cases hc : c = '\n'
    · subst hc
      simp only [List.foldl_cons, feedChar, reduceIte, List.nil_append]
      rw [feed_acc t' [] [b], ih [] (by simp)]
      have hsp : splitList (b ++ '\n' :: t') = b :: splitList t' := by
        rw [splitList_append_no_nl b ('\n' :: t') h]
        simp [splitList]
      rw [hsp]
      cases hsp' : splitList t' with
      | nil => exact absurd hsp' (splitList_ne_nil t')
      | cons x xs =>
        simp only [List.nil_append]
        rw [hsp']
        simp [List.getLastD_cons, List.dropLast_cons₂]
    · simp only [List.foldl_cons, feedChar, if_neg hc]
      have hb : '\n' ∉ b ++ [c] := by
        simp only [List.mem_append, List.mem_singleton, not_or]
        exact ⟨h, fun hh => hc hh.symm⟩
      rw [ih (b ++ [c]) hb]
      simp [List.append_assoc]

theorem feed_no_nl (t : List Char) : ∀ (b : List Char) (o : List (List Char)),
    '\n' ∉ b → '\n' ∉ (t.foldl feedChar (b, o)).1 := by
  induction t with
  | nil => intro b o h; exact h
  | cons c t' ih =>
    intro b o h
    by_cases hc : c = '\n'
    · subst hc
      simp only [List.foldl_cons, feedChar, reduceIte]
      exact ih [] _ (by simp)
    · simp only [List.foldl_cons, feedChar, if_neg hc]
      refine ih (b ++ [c]) _ ?_
      simp only [List.mem_append, List.mem_singleton, not_or]
      exact ⟨h, fun hh => hc hh.symm⟩

theorem feed_acc' (t : List Char) (p : List Char × List (List Char)) :
    t.foldl feedChar p
      = ((t.foldl feedChar (p.1, [])).1, p.2 ++ (t.foldl feedChar (p.1, [])).2) := by
  have h := feed_acc t p.1 p.2
  simpa using h

theorem decFold_acc (rest : List Nat) : ∀ (p : List Nat) (o : List Char),
    rest.foldl (fun acc b => ((decodeByte acc.1 b).1, acc.2 ++ (decodeByte acc.1 b).2)) (p, o)
      = ((decodeChunk p rest).1, o ++ (decodeChunk p rest).2) := by
  induction rest with
  | nil => intro p o; simp [decodeChunk]
  | cons b rest' ih =>
    intro p o
    simp only [decodeChunk, List.foldl_cons]
    rw [ih, ih]
    simp [List.append_assoc]

theorem decodeChunk_cons (p : List Nat) (b : Nat) (rest : List Nat) :
    decodeChunk p (b :: rest)
      = ((decodeChunk (decodeByte p b).1 rest).1,
         (decodeByte p b).2 ++ (decodeChunk (decodeByte p b).1 rest).2) := by
  simp only [decodeChunk, List.foldl_cons]
  rw [decFold_acc]
  simp only [List.nil_append]
  rfl

theorem chunkStep_feed (st : ReadSt) (chunk : List Nat) (h : '\n' ∉ st.buf) :
    chunkStep st chunk
      = { dec := (decodeChunk st.dec chunk).1,
          buf := ((decodeChunk st.dec chunk).2.foldl feedChar (st.buf, [])).1,
          out := st.out ++ ((decodeChunk st.dec chunk).2.foldl feedChar (st.buf, [])).2 } := by
  rw [feed_eq_split _ _ h]
  rfl

theorem chunkStep_no_nl (st : ReadSt) (c : List Nat) (h : '\n' ∉ st.buf) :
    '\n' ∉ (chunkStep st c).buf := by
  rw [chunkStep_feed st c h]
  exact feed_no_nl _ _ _ h

theorem chunkStep_eq_foldl (chunk : List Nat) : ∀ (st : ReadSt), '\n' ∉ st.buf →
    chunkStep st chunk = chunk.foldl byteStep st := by
  induction chunk with
  | nil =>
    intro st h
    rw [chunkStep_feed st [] h]
    simp [decodeChunk]
  | cons b rest ih =>
    intro st h
    have hb : '\n' ∉ (byteStep st b).buf := feed_no_nl _ _ _ h
    rw [List.foldl_cons, ← ih (byteStep st b) hb]
    rw [chunkStep_feed st (b :: rest) h, chunkStep_feed (byteStep st b) rest hb]
    simp only [byteStep, decodeChunk_cons]
    rw [List.foldl_append, feed_acc']
    simp [List.append_assoc]

theorem foldl_chunkStep_join (chunks : List (List Nat)) : ∀ (st : ReadSt), '\n' ∉ st.buf →
    chunks.foldl chunkStep st = (chunks.flatten).foldl byteStep st := by
  induction chunks with
  | nil => intro st h; rfl
  | cons c rest ih =>
    intro st h
    rw [List.foldl_cons, List.flatten_cons, List.foldl_append,
        chunkStep_eq_foldl c st h]
    exact ih _ (by rw [← chunkStep_eq_foldl c st h]; exact chunkStep_no_nl st c h)

theorem readStream_split_invariant (chunks : List (List Nat)) :
    readStream chunks = readStream [chunks.flatten] := by
  rw [readStream, readStream,
      foldl_chunkStep_join chunks _ (by simp),
      foldl_chunkStep_join [chunks.flatten] _ (by simp)]
  simp

/-- Stateful decode of an entire byte stream from a fresh decoder. -/
def decodeAll (bs : List Nat) : List Char := (decodeChunk [] bs).2

/-- Claim C1 (amended, the sendMessage part): however a byte stream is split
into chunks — at any byte offsets, including mid multi-byte character —
`sendMessage`'s reader emits exactly the complete lines of the decoded unsplit
stream (the trailing unterminated line is buffered, never emitted), and
therefore processes exactly the frames of the unsplit input, with identical
payloads.  The regenerateMessage part of the original claim is false; see the
counterexample. -/
theorem sendMessage_frame_reassembly (chunks : List (List Nat)) :
    (readStream chunks).out = (splitList (decodeAll chunks.flatten)).dropLast ∧
    sendFrames chunks = sendFrames [chunks.flatten] := by
  have h1 : readStream chunks = readStream [chunks.flatten] :=
    readStream_split_invariant chunks
  constructor
  · rw [h1, readStream]
    simp only [List.foldl_cons, List.foldl_nil]
    rw [chunkStep_feed _ _ (by simp)]
    rw [feed_eq_split _ _ (by simp)]
    simp [decodeAll]
  · rw [sendFrames, sendFrames, h1]

/-- Claim C1 counterexample (the regenerateMessage part): a `data:` line split
across two chunks is not reassembled by `regenerateMessage`'s loop — the
payloads it processes differ from those of the unsplit input (`\x7b"a":` alone
instead of `\x7b"a":1\x7d`). -/
theorem regenerate_frame_reassembly_cex :
    regenFrames [strBytes ("data: \x7b\"a\":"), strBytes ("1\x7d\n")]
        = [("\x7b\"a\":").toList] ∧
    regenFrames [strBytes ("data: \x7b\"a\":") ++ strBytes ("1\x7d\n")]
        = [("\x7b\"a\":1\x7d").toList] ∧
    regenFrames [strBytes ("data: \x7b\"a\":"), strBytes ("1\x7d\n")]
        ≠ regenFrames [strBytes ("data: \x7b\"a\":") ++ strBytes ("1\x7d\n")] :=
  ⟨by decide, by decide, by decide⟩

/-! ### Event shapes -/

def contentEvt (c : String) : Json :=
  .obj [(("type"), .str ("content")), (("content"), .str c)]

theorem processEvent_content (st : SendLoopSt) (c : String) (h : c ≠ ("")) :
    processEvent st (contentEvt c)
      = { st with assistantContent := st.assistantContent ++ c,
                  store := { st.store with
                    messages := applyToMsg st.store.messages st.assistantMsgId
                      (fun m => { m with content := st.assistantContent ++ c }) } } := by
  have hb : (c == ("")) = false := beq_eq_false_iff_ne.mpr h
  simp [processEvent, contentEvt, jGet, lookupField, truthy, strictEqStr, jstr, jsToString, hb]

def donePPEvt (p : String) : Json :=
  .obj [(("done"), .bool true), (("processed_content"), .str p)]

def errEvt (s : String) : Json := .obj [(("error"), .str s)]

def imgEvt (u : String) : Json :=
  .obj [(("type"), .str ("image")), (("url"), .str u)]

def idEvt (i : String) : Json := .obj [(("message_id"), .str i)]

def ppEvt (p : String) : Json :=
  .obj [(("type"), .str ("processed_content")), (("content"), .str p)]

theorem processEvent_donePP (st : SendLoopSt) (p : String) (h : p ≠ ("")) :
    processEvent st (donePPEvt p)
      = { st with store := { st.store with
            messages := applyToMsg st.store.messages st.assistantMsgId
              (fun m => { m with content := p }),
            isStreaming := false, agentStage := none } } := by
  have hb : (p == ("")) = false := beq_eq_false_iff_ne.mpr h
  simp [processEvent, donePPEvt, jGet, lookupField, truthy, strictEqStr, jstr, jsToString, hb]

theorem processEvent_error (st : SendLoopSt) (s : String) (h : s ≠ ("")) :
    processEvent st (errEvt s)
      = { st with store := { st.store with
            messages := applyToMsg st.store.messages st.assistantMsgId
              (fun m => { m with content := ("⚠️ Error: ") ++ s, isError := true }),
            isStreaming := false, agentStage := none } } := by
  have hb : (s == ("")) = false := beq_eq_false_iff_ne.mpr h
  simp [processEvent, errEvt, jGet, lookupField, truthy, strictEqStr, jstr, jsToString, hb]

theorem processEvent_image (st : SendLoopSt) (u : String) (h : u ≠ ("")) :
    processEvent st (imgEvt u)
      = { st with store := { st.store with
            sessionImages := st.store.sessionImages ++
              [{ url := u, messageId := st.assistantMsgId }],
            messages := applyToMsg st.store.messages st.assistantMsgId
              (fun m => { m with image_url := some u }) } } := by
  have hb : (u == ("")) = false := beq_eq_false_iff_ne.mpr h
  simp [processEvent, imgEvt, jGet, lookupField, truthy, strictEqStr, jstr, jsToString, hb]

theorem processEvent_id (st : SendLoopSt) (i : String) (h : i ≠ (""))
    (hne : i ≠ st.assistantMsgId) :
    processEvent st (idEvt i)
      = { st with assistantMsgId := i,
                  store := { st.store with
                    messages := applyToMsg st.store.messages st.assistantMsgId
                      (fun m => { m with id := i }) } } := by
  have hb : (i == ("")) = false := beq_eq_false_iff_ne.mpr h
  have hb2 : (i == st.assistantMsgId) = false := beq_eq_false_iff_ne.mpr hne
  simp [processEvent, idEvt, jGet, lookupField, truthy, strictEqStr, jstr, jsToString, hb, hb2]

theorem processEvent_pp (st : SendLoopSt) (p : String) (h : p ≠ ("")) :
    processEvent st (ppEvt p)
      = { st with store := { st.store with
            messages := applyToMsg st.store.messages st.assistantMsgId
              (fun m => { m with content := p }) } } := by
  have hb : (p == ("")) = false := beq_eq_false_iff_ne.mpr h
  simp [processEvent, ppEvt, jGet, lookupField, truthy, strictEqStr, jstr, jsToString, hb]

theorem regenEvent_content (st : RegenLoopSt) (c : String) (h : c ≠ ("")) :
    regenProcessEvent st (contentEvt c)
      = { st with newContent := st.newContent ++ c,
                  store := { st.store with
                    messages := applyToMsg st.store.messages st.newMsgId
                      (fun m => { m with content := st.newContent ++ c }) } } := by
  have hb : (c == ("")) = false := beq_eq_false_iff_ne.mpr h
  simp [regenProcessEvent, contentEvt, jGet, lookupField, truthy, strictEqStr, jstr, jsToString, hb]

theorem regenEvent_id (st : RegenLoopSt) (i : String) (h : i ≠ ("")) :
    regenProcessEvent st (idEvt i) = { st with newMsgId := i } := by
  have hb : (i == ("")) = false := beq_eq_false_iff_ne.mpr h
  simp [regenProcessEvent, idEvt, jGet, lookupField, truthy, strictEqStr, jstr, jsToString, hb]

theorem applyToMsg_nomatch (l : List Message) (t : String) (f : Message → Message)
    (hl : ∀ x ∈ l, x.id ≠ t) : applyToMsg l t f = l := by
  induction l with
  | nil => rfl
  | cons a l' ih =>
    have ha : (a.id == t) = false := beq_eq_false_iff_ne.mpr (hl a (by simp))
    simp only [applyToMsg, List.map_cons, ha, Bool.false_eq_true, if_false]
    have := ih (fun x hx => hl x (List.mem_cons_of_mem a hx))
    simp only [applyToMsg] at this
    rw [this]

theorem applyToMsg_split (pre post : List Message) (m : Message) (t : String)
    (f : Message → Message) (hpre : ∀ x ∈ pre, x.id ≠ t) (hm : m.id = t)
    (hpost : ∀ x ∈ post, x.id ≠ t) :
    applyToMsg (pre ++ m :: post) t f = pre ++ f m :: post := by
  have hmb : (m.id == t) = true := by rw [hm]; exact beq_self_eq_true t
  simp only [applyToMsg, List.map_append, List.map_cons, hmb, if_true]
  have h1 := applyToMsg_nomatch pre t f hpre
  have h2 := applyToMsg_nomatch post t f hpost
  simp only [applyToMsg] at h1 h2
  rw [h1, h2]

/-- Concatenation of a list of delta strings, in arrival order. -/
def concatAll : List String → String
  | [] => ("")
  | s :: r => s ++ concatAll r

theorem str_append_empty (s : String) : s ++ ("") = s := by
  cases s with
  | mk d =>
    show String.mk (d ++ []) = String.mk d
    rw [List.append_nil]

theorem processEvents_deltas (ds : List String) :
    ∀ (st : SendLoopSt) (pre post : List Message) (m : Message),
    st.store.messages = pre ++ m :: post →
    m.id = st.assistantMsgId →
    (∀ x ∈ pre, x.id ≠ st.assistantMsgId) →
    (∀ x ∈ post, x.id ≠ st.assistantMsgId) →
    (∀ d ∈ ds, d ≠ ("")) →
    ∃ cont,
      processEvents st (ds.map contentEvt)
        = { st with
            assistantContent := st.assistantContent ++ concatAll ds,
            store := { st.store with
              messages := pre ++ ({ m with content := cont }) :: post } } := by
  induction ds with
  | nil =>
    intro st pre post m hm hid _ _ _
    refine ⟨m.content, ?_⟩
    simp only [List.map_nil, processEvents, List.foldl_nil, concatAll,
      str_append_empty]
    rw [← hm]
  | cons d ds' ih =>
    intro st pre post m hm hid hpre hpost hds
    have hd : d ≠ ("") := hds d (by simp)
    simp only [List.map_cons, processEvents, List.foldl_cons]
    rw [processEvent_content st d hd]
    have hmsgs : applyToMsg st.store.messages st.assistantMsgId
        (fun x => { x with content := st.assistantContent ++ d })
          = pre ++ ({ m with content := st.assistantContent ++ d }) :: post := by
      rw [hm]
      exact applyToMsg_split pre post m st.assistantMsgId _ hpre hid hpost
    obtain ⟨cont, hc⟩ := ih
      { st with
        assistantContent := st.assistantContent ++ d,
        store := { st.store with
          messages := applyToMsg st.store.messages st.assistantMsgId
            (fun x => { x with content := st.assistantContent ++ d }) } }
      pre post ({ m with content := st.assistantContent ++ d })
      (by simpa using hmsgs) hid hpre hpost
      (fun x hx => hds x (by simp [hx]))
    refine ⟨cont, ?_⟩
    simp only [processEvents] at hc
    rw [hc]
    simp [concatAll, String.append_assoc]

/-- Claim C6: content deltas followed by a `Done` event carrying
`processed_content` leave the target message's content exactly equal to the
`processed_content` payload, wholly replacing the concatenated partial
content. -/
theorem done_processed_content_overrides
    (st : SendLoopSt) (pre post : List Message) (m : Message)
    (ds : List String) (p : String)
    (hm : st.store.messages = pre ++ m :: post)
    (hid : m.id = st.assistantMsgId)
    (hpre : ∀ x ∈ pre, x.id ≠ st.assistantMsgId)
    (hpost : ∀ x ∈ post, x.id ≠ st.assistantMsgId)
    (hds : ∀ d ∈ ds, d ≠ (""))
    (hp : p ≠ ("")) :
    (processEvents st (ds.map contentEvt ++ [donePPEvt p])).store.messages
      = pre ++ ({ m with content := p }) :: post := by
  obtain ⟨cont, hc⟩ := processEvents_deltas ds st pre post m hm hid hpre hpost hds
  rw [processEvents, List.foldl_append]
  have h1 : List.foldl processEvent st (ds.map contentEvt)
      = processEvents st (ds.map contentEvt) := rfl
  rw [h1, hc, List.foldl_cons, List.foldl_nil, processEvent_donePP _ p hp]
  simp only []
  rw [applyToMsg_split pre post ({ m with content := cont }) st.assistantMsgId _ hpre hid hpost]

theorem str_empty_append (s : String) : ("") ++ s = s := rfl

/-- Claim C9: deltas accumulate in the session-local `assistantContent`
rather than being read back from the message, so after a `processed_content`
replacement a further delta resets the message content to the concatenation of
all deltas received so far (including those before the replacement),
discarding the processed replacement. -/
theorem deltas_tracked_locally_override_processed
    (st : SendLoopSt) (pre post : List Message) (m : Message)
    (ds1 : List String) (p d : String)
    (hm : st.store.messages = pre ++ m :: post)
    (hid : m.id = st.assistantMsgId)
    (hpre : ∀ x ∈ pre, x.id ≠ st.assistantMsgId)
    (hpost : ∀ x ∈ post, x.id ≠ st.assistantMsgId)
    (hac : st.assistantContent = (""))
    (hds : ∀ x ∈ ds1, x ≠ (""))
    (hp : p ≠ ("")) (hd : d ≠ ("")) :
    (processEvents st (ds1.map contentEvt ++ [ppEvt p])).store.messages
        = pre ++ ({ m with content := p }) :: post ∧
    (processEvents st ((ds1.map contentEvt ++ [ppEvt p]) ++ [contentEvt d])).store.messages
        = pre ++ ({ m with content := concatAll ds1 ++ d }) :: post := by
  obtain ⟨cont, hc⟩ := processEvents_deltas ds1 st pre post m hm hid hpre hpost hds
  have h1 : List.foldl processEvent st (ds1.map contentEvt)
      = processEvents st (ds1.map contentEvt) := rfl
  have hpp : (processEvents st (ds1.map contentEvt ++ [ppEvt p]))
      = { st with
          assistantContent := st.assistantContent ++ concatAll ds1,
          store := { st.store with
            messages := pre ++ ({ m with content := p }) :: post } } := by
    rw [processEvents, List.foldl_append, h1, hc, List.foldl_cons, List.foldl_nil,
        processEvent_pp _ p hp]
    simp only []
    rw [applyToMsg_split pre post ({ m with content := cont }) st.assistantMsgId _ hpre hid hpost]
  constructor
  · rw [hpp]
  · rw [processEvents, List.foldl_append]
    have h2 : List.foldl processEvent st (ds1.map contentEvt ++ [ppEvt p])
        = processEvents st (ds1.map contentEvt ++ [ppEvt p]) := rfl
    rw [h2, hpp, List.foldl_cons, List.foldl_nil, processEvent_content _ d hd]
    simp only []
    rw [applyToMsg_split pre post ({ m with content := p }) st.assistantMsgId _ hpre hid hpost]
    rw [hac, str_empty_append]

/-- Claim C4 (amended): deltas followed by a `Failure` event leave the target
message with `isError = true` and its content *replaced* by the error text
`⚠️ Error: <error>`; the accumulated partial content is discarded, not
preserved as the original claim states (see the counterexample). -/
theorem failure_flags_error_and_replaces_content
    (st : SendLoopSt) (pre post : List Message) (m : Message)
    (ds : List String) (s : String)
    (hm : st.store.messages = pre ++ m :: post)
    (hid : m.id = st.assistantMsgId)
    (hpre : ∀ x ∈ pre, x.id ≠ st.assistantMsgId)
    (hpost : ∀ x ∈ post, x.id ≠ st.assistantMsgId)
    (hds : ∀ d ∈ ds, d ≠ (""))
    (hs : s ≠ ("")) :
    (processEvents st (ds.map contentEvt ++ [errEvt s])).store.messages
        = pre ++ ({ m with content := ("⚠️ Error: ") ++ s, isError := true }) :: post ∧
    (processEvents st (ds.map contentEvt ++ [errEvt s])).store.isStreaming = false := by
  obtain ⟨cont, hc⟩ := processEvents_deltas ds st pre post m hm hid hpre hpost hds
  have h1 : List.foldl processEvent st (ds.map contentEvt)
      = processEvents st (ds.map contentEvt) := rfl
  have h2 : processEvents st (ds.map contentEvt ++ [errEvt s])
      = { st with
          assistantContent := st.assistantContent ++ concatAll ds,
          store := { st.store with
            messages := pre ++
              ({ m with content := ("⚠️ Error: ") ++ s, isError := true }) :: post,
            isStreaming := false, agentStage := none } } := by
    rw [processEvents, List.foldl_append, h1, hc, List.foldl_cons, List.foldl_nil,
        processEvent_error _ s hs]
    simp only []
    rw [applyToMsg_split pre post ({ m with content := cont }) st.assistantMsgId _ hpre hid hpost]
  rw [h2]
  exact ⟨rfl, rfl⟩

/-- Claim C2 (amended): `stopStreaming` only resets `isStreaming` and
`agentStage`; it does not abort the underlying read, and a `ContentDelta`
delivered afterwards — to any store state, in particular the store after
cancellation or after a second turn's first mutations — is still applied to
the first session's message.  The original no-mutation-after guarantee is
false; see the counterexample. -/
theorem stopStreaming_only_resets_flags (s : Store) (ac aid c : String) (h : c ≠ ("")) :
    stopStreaming s = { s with isStreaming := false, agentStage := none } ∧
    (processEvent { store := s, assistantContent := ac, assistantMsgId := aid }
        (contentEvt c)).store.messages
      = applyToMsg s.messages aid (fun m => { m with content := ac ++ c }) := by
  refine ⟨rfl, ?_⟩
  rw [processEvent_content _ c h]

/-- Claim C5 (amended): an `ImageReady` event appends unconditionally to the
session image gallery — there is no dedupe by URL plus message id, so applying
the same event twice yields two identical entries (the original idempotence
claim is false; see the counterexample). -/
theorem imageReady_append_not_idempotent (st : SendLoopSt) (u : String) (h : u ≠ ("")) :
    (processEvent st (imgEvt u)).store.sessionImages
        = st.store.sessionImages ++ [{ url := u, messageId := st.assistantMsgId }] ∧
    (processEvent (processEvent st (imgEvt u)) (imgEvt u)).store.sessionImages
        = st.store.sessionImages ++
            [{ url := u, messageId := st.assistantMsgId },
             { url := u, messageId := st.assistantMsgId }] := by
  constructor
  · rw [processEvent_image st u h]
  · rw [processEvent_image st u h, processEvent_image _ u h]
    simp

/-- Claim C8: a `StageChunk` event — any record whose `type` is
`director_chunk` (respectively `paint_chunk`) and that carries a content
field, whatever other fields it also carries (`done`, `error`, `message_id`,
`url`, ...) — appends its delta to the named stage accumulator only: the
resulting state differs from the input state in that single accumulator field,
messages and all other fields are untouched, and no later classifier branch
fires for the same frame (the `continue` suppresses the `done`/`error`/
`message_id`/image branches even when their trigger fields are present).
The events are arbitrary apart from the hypotheses on their `stage`, `type`
and `content` fields; the stage-absence hypothesis only excludes frames that
are also a `StageChange`, which the classifier handles first. -/
theorem stage_chunk_targets_accumulator_only
    (st : SendLoopSt) (ed ep : Json) (c : String)
    (hc : c ≠ (""))
    (hds : truthy (jGet ed ("stage")) = false)
    (hdt : jGet ed ("type") = some (.str ("director_chunk")))
    (hdc : jGet ed ("content") = some (.str c))
    (hps : truthy (jGet ep ("stage")) = false)
    (hpt : jGet ep ("type") = some (.str ("paint_chunk")))
    (hpc : jGet ep ("content") = some (.str c)) :
    processEvent st ed
        = { st with store :=
            { st.store with directorOutput := st.store.directorOutput ++ c } } ∧
    processEvent st ep
        = { st with store :=
            { st.store with paintDirectorOutput := st.store.paintDirectorOutput ++ c } } := by
  have hb : (c == ("")) = false := beq_eq_false_iff_ne.mpr hc
  constructor
  · have h1 : ((strictEqStr (jGet ed ("type")) ("director_chunk"))
        && truthy (jGet ed ("content"))) = true := by
      rw [hdt, hdc]
      simp [strictEqStr, truthy, hb]
    have hj : jstr ed ("content") = c := by
      simp [jstr, hdc, jsToString]
    simp only [processEvent, hds, h1, hj, Bool.false_eq_true, if_false, reduceIte]
  · have h1 : ((strictEqStr (jGet ep ("type")) ("director_chunk"))
        && truthy (jGet ep ("content"))) = false := by
      rw [hpt]
      simp [strictEqStr]
    have h2 : strictEqStr (jGet ep ("type")) ("outline") = false := by
      rw [hpt]
      simp [strictEqStr]
    have h3 : ((strictEqStr (jGet ep ("type")) ("paint_chunk"))
        && truthy (jGet ep ("content"))) = true := by
      rw [hpt, hpc]
      simp [strictEqStr, truthy, hb]
    have hj : jstr ep ("content") = c := by
      simp [jstr, hpc, jsToString]
    simp only [processEvent, hps, h1, h2, h3, hj, Bool.false_eq_true, if_false, reduceIte]

/-- Claim C3 (amended): in `sendMessage`, an `IdAssigned` event rewrites the
tracked message's id in place (position and accumulated content preserved), a
following delta targets the canonical id, and no message with the provisional
id remains.  In `regenerateMessage`, however, the event only reassigns the
loop-local target id: the message keeps its provisional id and a following
delta applies to no message (the original claim asserted the sendMessage
behaviour for both paths; see the counterexample). -/
theorem id_aliasing_send_in_place_regen_local_only
    (st : SendLoopSt) (pre post : List Message) (m : Message) (newId c : String)
    (rst : RegenLoopSt)
    (hm : st.store.messages = pre ++ m :: post)
    (hid : m.id = st.assistantMsgId)
    (hpre : ∀ x ∈ pre, x.id ≠ st.assistantMsgId)
    (hpost : ∀ x ∈ post, x.id ≠ st.assistantMsgId)
    (hpre2 : ∀ x ∈ pre, x.id ≠ newId)
    (hpost2 : ∀ x ∈ post, x.id ≠ newId)
    (hn : newId ≠ ("")) (hne : newId ≠ st.assistantMsgId) (hc : c ≠ (""))
    (hrall : ∀ x ∈ rst.store.messages, x.id ≠ newId) :
    ((processEvents st [idEvt newId, contentEvt c]).store.messages
        = pre ++ ({ m with id := newId, content := st.assistantContent ++ c }) :: post ∧
     (processEvents st [idEvt newId, contentEvt c]).assistantMsgId = newId ∧
     ∀ x ∈ (processEvents st [idEvt newId, contentEvt c]).store.messages,
       x.id ≠ st.assistantMsgId) ∧
    ((regenProcessEvents rst [idEvt newId, contentEvt c]).store.messages
        = rst.store.messages ∧
     (regenProcessEvents rst [idEvt newId, contentEvt c]).newMsgId = newId) := by
  have hsend : processEvents st [idEvt newId, contentEvt c]
      = { st with
          assistantMsgId := newId,
          assistantContent := st.assistantContent ++ c,
          store := { st.store with
            messages := pre ++
              ({ m with id := newId, content := st.assistantContent ++ c }) :: post } } := by
    show processEvent (processEvent st (idEvt newId)) (contentEvt c) = _
    rw [processEvent_id st newId hn hne]
    have hmid : applyToMsg st.store.messages st.assistantMsgId
        (fun x => { x with id := newId })
          = pre ++ ({ m with id := newId }) :: post := by
      rw [hm]
      exact applyToMsg_split pre post m st.assistantMsgId _ hpre hid hpost
    rw [processEvent_content _ c hc]
    simp only [hmid]
    rw [applyToMsg_split pre post ({ m with id := newId }) newId _ hpre2 rfl hpost2]
  have hregen : regenProcessEvents rst [idEvt newId, contentEvt c]
      = { rst with
          newMsgId := newId,
          newContent := rst.newContent ++ c } := by
    show regenProcessEvent (regenProcessEvent rst (idEvt newId)) (contentEvt c) = _
    rw [regenEvent_id rst newId hn, regenEvent_content _ c hc]
    simp only []
    rw [applyToMsg_nomatch rst.store.messages newId _ hrall]
  refine ⟨⟨?_, ?_, ?_⟩, ?_, ?_⟩
  · rw [hsend]
  · rw [hsend]
  · rw [hsend]
    intro x hx
    simp only [List.mem_append, List.mem_cons] at hx
    rcases hx with hx | hx | hx
    · exact hpre x hx
    · subst hx
      exact fun hh => hne hh
    · exact hpost x hx
  · rw [hregen]
  · rw [hregen]


/-- Claim C7: a frame whose payload fails JSON parsing is silently dropped by
both ingestion loops — processing a stream with the malformed frame spliced in
anywhere equals processing the stream without it, so no state mutation occurs
for that frame, the session is not terminated, and every subsequent frame is
processed normally. -/
theorem malformed_frame_silently_dropped
    (st : SendLoopSt) (rst : RegenLoopSt) (pre post : List String) (bad : String)
    (h1 : parseJson (jsTrim (bad.drop 6)) = none)
    (h2 : parseJson (bad.drop 6) = none) :
    processLines st (pre ++ bad :: post) = processLines st (pre ++ post) ∧
    regenProcessLines rst (pre ++ bad :: post) = regenProcessLines rst (pre ++ post) := by
  have hs : ∀ s : SendLoopSt, processLine s bad = s := by
    intro s
    simp only [processLine, h1, ite_self]
  have hr : ∀ s : RegenLoopSt, regenProcessLine s bad = s := by
    intro s
    simp only [regenProcessLine, h2, ite_self]
  constructor
  · rw [processLines, List.foldl_append, List.foldl_cons, hs, ← List.foldl_append]
    rfl
  · rw [regenProcessLines, List.foldl_append, List.foldl_cons, hr, ← List.foldl_append]
    rfl

/-- Claim C10: calling `regenerateMessage` with no active session, a
null/undefined `messageId`, or a `messageId` not present in the message list
performs no network request and leaves the whole store unchanged. -/
theorem regenerate_guards_no_request (store : Store) (messageId : Option String)
    (h : store.activeSession = none ∨ messageId = none ∨
         ∃ s, messageId = some s ∧ ∀ m ∈ store.messages, m.id ≠ s) :
    regenerateStart store messageId = { store := store, request := none } := by
  rcases h with h | h | ⟨s, hs, hnone⟩
  · rw [regenerateStart, h]
  · rw [regenerateStart]
    cases has : store.activeSession with
    | none => rfl
    | some sess => rw [h]
  · subst hs
    cases has : store.activeSession with
    | none => rw [regenerateStart, has]
    | some sess =>
      have hfind : store.messages.findIdx? (fun m => m.id == s) = none := by
        rw [List.findIdx?_eq_none_iff]
        intro m hm
        exact beq_eq_false_iff_ne.mpr (hnone m hm)
      simp only [regenerateStart, has, hfind]
      by_cases hse : s = ("")
      · rw [if_pos hse]
      · rw [if_neg hse]

/-! ### Concrete sample states for witnesses and counterexamples -/

def wMsg : Message :=
  { id := ("assistant-1"), role := ("assistant"), content := (""),
    image_url := none, isError := false, timestamp := ("t0") }

def wStore : Store :=
  { messages := [wMsg], isStreaming := true, agentStage := none,
    directorOutput := (""), paintDirectorOutput := (""),
    showDirectorPopup := false, showPaintDirectorPopup := false,
    sessionImages := [], activeSession := some { id := ("sess-1") },
    sessions := [{ id := ("sess-1") }] }

def wSt : SendLoopSt :=
  { store := wStore, assistantContent := (""), assistantMsgId := ("assistant-1") }

def wRst : RegenLoopSt :=
  { store := { wStore with messages := [{ wMsg with id := ("regen-1") }] },
    newContent := (""), newMsgId := ("regen-1") }

def wMsgHel : Message := { wMsg with content := ("Hel") }

def wStoreHel : Store := { wStore with messages := [wMsgHel] }

/-- The store after a second turn's optimistic start mutations while the first
turn's message (`assistant-1`, partial content `"Hel"`) is still streaming. -/
def wStoreAfterB : Store :=
  (sendStart wStoreHel ("hi B") ("temp-2") ("assistant-2") ("t1")).1

/-- Loop locals of the first turn (session A), as they stand mid-stream. -/
def wLocA (s : Store) : SendLoopSt :=
  { store := s, assistantContent := ("Hel"), assistantMsgId := ("assistant-1") }

theorem stopStreaming_only_resets_flags_witness :
    (("lo") ≠ ("")) ∧
    (stopStreaming wStore = { wStore with isStreaming := false, agentStage := none } ∧
     (processEvent (wLocA wStore) (contentEvt ("lo"))).store.messages
       = applyToMsg wStore.messages ("assistant-1")
           (fun m => { m with content := ("Hel") ++ ("lo") })) :=
  ⟨by decide,
   stopStreaming_only_resets_flags wStore ("Hel") ("assistant-1") ("lo") (by decide)⟩

theorem cancellation_race_cex :
    ((processEvent (wLocA wStoreAfterB) (contentEvt ("lo"))).store.messages
      ≠ wStoreAfterB.messages) ∧
    ((processEvent (wLocA wStoreAfterB) (contentEvt ("lo"))).store.messages.map
        (fun m => (m.id, m.content))
      = [(("assistant-1"), ("Hello")), (("temp-2"), ("hi B")), (("assistant-2"), (""))]) ∧
    ((processEvent (wLocA (stopStreaming wStoreHel)) (contentEvt ("lo"))).store.messages
      ≠ (stopStreaming wStoreHel).messages) :=
  ⟨by decide, by decide, by decide⟩

theorem id_aliasing_witness :
    (("srv-99") ≠ ("assistant-1")) ∧
    (processEvents wSt [idEvt ("srv-99"), contentEvt ("Hi")]).store.messages
      = [{ wMsg with id := ("srv-99"), content := ("Hi") }] :=
  ⟨by decide, by
    have h := (id_aliasing_send_in_place_regen_local_only wSt [] [] wMsg
      ("srv-99") ("Hi") wRst rfl rfl (by simp) (by simp) (by simp) (by simp)
      (by decide) (by decide) (by decide) (by decide)).1.1
    simpa using h⟩

theorem regen_id_aliasing_cex :
    ((regenProcessEvents wRst [idEvt ("srv-9"), contentEvt ("Hi")]).store.messages.map
        (fun m => (m.id, m.content))
      = [(("regen-1"), (""))]) ∧
    ¬ (∃ m ∈ (regenProcessEvents wRst [idEvt ("srv-9"), contentEvt ("Hi")]).store.messages,
         m.id = ("srv-9")) :=
  ⟨by decide, by decide⟩

theorem failure_flags_error_witness :
    (("boom") ≠ ("")) ∧
    (processEvents wSt ([("Once upon")].map contentEvt ++ [errEvt ("boom")])).store.messages
      = [{ wMsg with content := ("⚠️ Error: ") ++ ("boom"), isError := true }] :=
  ⟨by decide, by
    have h := (failure_flags_error_and_replaces_content wSt [] [] wMsg
      [("Once upon")] ("boom") rfl rfl (by simp) (by simp) (by decide) (by decide)).1
    simpa using h⟩

theorem error_preserves_partial_content_cex :
    ((processEvents wSt [contentEvt ("Once upon"), errEvt ("boom")]).store.messages.map
        (fun m => (m.content, m.isError))
      = [(("⚠️ Error: boom"), true)]) ∧
    (processEvents wSt [contentEvt ("Once upon"), errEvt ("boom")]).store.messages.map
        (fun m => m.content) ≠ [("Once upon")] :=
  ⟨by decide, by decide⟩

theorem imageReady_append_witness :
    (("http://x/i.png") ≠ ("")) ∧
    (processEvent (processEvent wSt (imgEvt ("http://x/i.png")))
        (imgEvt ("http://x/i.png"))).store.sessionImages
      = [{ url := ("http://x/i.png"), messageId := ("assistant-1") },
         { url := ("http://x/i.png"), messageId := ("assistant-1") }] :=
  ⟨by decide, by
    have h := (imageReady_append_not_idempotent wSt ("http://x/i.png") (by decide)).2
    simpa [wSt, wStore] using h⟩

theorem image_dedupe_cex :
    ((processEvents wSt [imgEvt ("http://x/i.png"),
        imgEvt ("http://x/i.png")]).store.sessionImages.length = 2) ∧
    (processEvents wSt [imgEvt ("http://x/i.png"),
        imgEvt ("http://x/i.png")]).store.sessionImages
      ≠ [{ url := ("http://x/i.png"), messageId := ("assistant-1") }] :=
  ⟨by decide, by decide⟩

theorem done_processed_witness :
    (("HELLO WORLD") ≠ ("")) ∧
    (processEvents wSt ([("Hello"), (" world")].map contentEvt
        ++ [donePPEvt ("HELLO WORLD")])).store.messages
      = [{ wMsg with content := ("HELLO WORLD") }] :=
  ⟨by decide, by
    have h := done_processed_content_overrides wSt [] [] wMsg [("Hello"), (" world")]
      ("HELLO WORLD") rfl rfl (by simp) (by simp) (by decide) (by decide)
    simpa using h⟩

theorem malformed_frame_witness :
    parseJson (jsTrim ((("data: \x7b\"content\": \"ok\"")).drop 6)) = none ∧
    processLines wSt [("data: \x7b\"content\": \"ok\""), ("data: \x7b\"done\": true\x7d")]
      = processLines wSt [("data: \x7b\"done\": true\x7d")] :=
  ⟨rfl, (malformed_frame_silently_dropped wSt wRst []
      [("data: \x7b\"done\": true\x7d")] ("data: \x7b\"content\": \"ok\"") rfl rfl).1⟩

/-- A composite `director_chunk` frame that also carries `done`, `error`,
`message_id` and `url` — the fields whose branches the `continue` must
suppress. -/
def wDChunkFrame : Json :=
  .obj [(("type"), .str ("director_chunk")), (("content"), .str ("out")),
        (("done"), .bool true), (("error"), .str ("boom")),
        (("message_id"), .str ("srv-1")), (("url"), .str ("u"))]

/-- A composite `paint_chunk` frame carrying `done` and `error` as well. -/
def wPChunkFrame : Json :=
  .obj [(("type"), .str ("paint_chunk")), (("content"), .str ("out")),
        (("done"), .bool true), (("error"), .str ("boom"))]

theorem stage_chunk_witness :
    (("out") ≠ ("")) ∧
    (processEvent wSt wDChunkFrame
        = { wSt with store :=
            { wSt.store with directorOutput := wSt.store.directorOutput ++ ("out") } } ∧
     processEvent wSt wPChunkFrame
        = { wSt with store :=
            { wSt.store with
                paintDirectorOutput := wSt.store.paintDirectorOutput ++ ("out") } }) :=
  ⟨by decide,
   stage_chunk_targets_accumulator_only wSt wDChunkFrame wPChunkFrame ("out")
     (by decide) rfl rfl rfl rfl rfl rfl⟩

theorem deltas_override_witness :
    (("PROCESSED") ≠ ("")) ∧
    (processEvents wSt (([("Once")].map contentEvt ++ [ppEvt ("PROCESSED")])
        ++ [contentEvt (" upon")])).store.messages
      = [{ wMsg with content := concatAll [("Once")] ++ (" upon") }] :=
  ⟨by decide, by
    have h := (deltas_tracked_locally_override_processed wSt [] [] wMsg [("Once")]
      ("PROCESSED") (" upon") rfl rfl (by simp) (by simp) rfl (by decide)
      (by decide) (by decide)).2
    simpa using h⟩

theorem regenerate_guards_witness :
    (∀ m ∈ wStore.messages, m.id ≠ ("mx")) ∧
    regenerateStart wStore (some ("mx")) = { store := wStore, request := none } :=
  ⟨by decide,
   regenerate_guards_no_request wStore (some ("mx"))
     (Or.inr (Or.inr ⟨("mx"), rfl, by decide⟩))⟩
